import Mathlib

/-!
Verification development for the shepherd-cli session filter engine and
Langfuse trace-tree reconstruction (src/shepherd/cli/sessions.py and
src/shepherd/cli/langfuse.py), as a shallow embedding in Lean 4.

Modelling conventions:
* Python `float` timestamps appear in the code only in order comparisons
  (`<`, `>`) and truthiness tests, so they are embedded as `Int`.
* Python strings are Lean `String`; `str.lower()` is `String.toLower`
  (the inputs exercised are ASCII); `x in s` (substring) is `strContains`.
* Opaque JSON payloads (requests, evaluation records, metadata values)
  are embedded as the inductive `JsonVal`; Python `str(x)` is `pyStr`
  (its `repr` of nested strings omits escape handling, which no claim
  exercises).
* Python truthiness of optional arguments (`if query ...`, `if after ...`,
  `if limit ...`) is embedded explicitly: `None`, `""`, `0`, `[]` and `{}`
  are falsy.
-/

/-- A JSON-like Python value, as carried in request payloads, metadata and
evaluation records. -/
inductive JsonVal where
  | null : JsonVal
  | bool (b : Bool) : JsonVal
  | num (n : Int) : JsonVal
  | str (s : String) : JsonVal
  | arr (xs : List JsonVal) : JsonVal
  | obj (fields : List (String × JsonVal)) : JsonVal

/-- Python `repr` of a value (quotes strings; no escape handling, which no
claim exercises). Used inside containers by `pyStr`. -/
def pyRepr : JsonVal → String
  | .null => "None"
  | .bool true => "True"
  | .bool false => "False"
  | .num n => toString n
  | .str s => "'" ++ s ++ "'"
  | .arr xs => "[" ++ String.intercalate ", " (xs.attach.map fun v => pyRepr v.1) ++ "]"
  | .obj fs => "\x7b" ++ String.intercalate ", "
      (fs.attach.map fun kv => "'" ++ kv.1.1 ++ "': " ++ pyRepr kv.1.2) ++ "\x7d"
decreasing_by
  · have h := List.sizeOf_lt_of_mem v.2
    simp only [JsonVal.arr.sizeOf_spec]
    omega
  · have h1 := List.sizeOf_lt_of_mem kv.2
    have h2 : sizeOf kv.1.2 < sizeOf kv.1 := by
      obtain ⟨⟨a, b⟩, hk⟩ := kv
      simp only [Prod.mk.sizeOf_spec]
      omega
    simp only [JsonVal.obj.sizeOf_spec]
    omega

/-- Python `str(x)`: the string itself for strings, `repr` otherwise. -/
def pyStr : JsonVal → String
  | .str s => s
  | v => pyRepr v

/-- First-match lookup in an association list, modelling `dict.get(k)`
(Python dict keys are unique, so first-match is exact). -/
def dictGet (fs : List (String × JsonVal)) (k : String) : Option JsonVal :=
  (fs.find? (fun kv => kv.1 == k)).map (·.2)

/-- `dict.get(k, default)`. -/
def dictGetD (fs : List (String × JsonVal)) (k : String) (d : JsonVal) : JsonVal :=
  (dictGet fs k).getD d

/-- Python `x is False`: true exactly for the boolean `False`. -/
def isFalseVal : Option JsonVal → Bool
  | some (.bool false) => true
  | _ => false

/-- Whether a `JsonVal` is a mapping (`isinstance(x, dict)`). -/
def isObjVal : JsonVal → Bool
  | .obj _ => true
  | _ => false

/-- Python substring test `needle in hay` on character lists. -/
def listContainsSub (hay needle : List Char) : Bool :=
  match hay with
  | [] => needle.isEmpty
  | _ :: t => needle.isPrefixOf hay || listContainsSub t needle

/-- Python substring test `needle in hay` on strings. -/
def strContains (hay needle : String) : Bool :=
  listContainsSub hay.toList needle.toList

/-- ASCII lowercase of a character (`str.lower`; inputs exercised are
ASCII). Written over `Char.toNat` so that it reduces in the kernel. -/
def pyLowerChar (c : Char) : Char :=
  if 65 ≤ c.toNat ∧ c.toNat ≤ 90 then Char.ofNat (c.toNat + 32) else c

/-- ASCII lowercase of a string (`str.lower`). -/
def pyLower (s : String) : String :=
  ⟨s.data.map pyLowerChar⟩

mutual

/-- Decidable equality for `JsonVal` (hand-written: the nested `List`
occurrences defeat `deriving`). -/
def JsonVal.deq : (a b : JsonVal) → Decidable (a = b)
  | .null, .null => isTrue rfl
  | .bool a, .bool b =>
    if h : a = b then isTrue (by rw [h]) else isFalse (by intro hc; cases hc; exact h rfl)
  | .num a, .num b =>
    if h : a = b then isTrue (by rw [h]) else isFalse (by intro hc; cases hc; exact h rfl)
  | .str a, .str b =>
    if h : a = b then isTrue (by rw [h]) else isFalse (by intro hc; cases hc; exact h rfl)
  | .arr xs, .arr ys =>
    match JsonVal.deqList xs ys with
    | isTrue h => isTrue (by rw [h])
    | isFalse h => isFalse (by intro hc; cases hc; exact h rfl)
  | .obj fs, .obj gs =>
    match JsonVal.deqFields fs gs with
    | isTrue h => isTrue (by rw [h])
    | isFalse h => isFalse (by intro hc; cases hc; exact h rfl)
  | .null, .bool _ => isFalse fun h => nomatch h
  | .null, .num _ => isFalse fun h => nomatch h
  | .null, .str _ => isFalse fun h => nomatch h
  | .null, .arr _ => isFalse fun h => nomatch h
  | .null, .obj _ => isFalse fun h => nomatch h
  | .bool _, .null => isFalse fun h => nomatch h
  | .bool _, .num _ => isFalse fun h => nomatch h
  | .bool _, .str _ => isFalse fun h => nomatch h
  | .bool _, .arr _ => isFalse fun h => nomatch h
  | .bool _, .obj _ => isFalse fun h => nomatch h
  | .num _, .null => isFalse fun h => nomatch h
  | .num _, .bool _ => isFalse fun h => nomatch h
  | .num _, .str _ => isFalse fun h => nomatch h
  | .num _, .arr _ => isFalse fun h => nomatch h
  | .num _, .obj _ => isFalse fun h => nomatch h
  | .str _, .null => isFalse fun h => nomatch h
  | .str _, .bool _ => isFalse fun h => nomatch h
  | .str _, .num _ => isFalse fun h => nomatch h
  | .str _, .arr _ => isFalse fun h => nomatch h
  | .str _, .obj _ => isFalse fun h => nomatch h
  | .arr _, .null => isFalse fun h => nomatch h
  | .arr _, .bool _ => isFalse fun h => nomatch h
  | .arr _, .num _ => isFalse fun h => nomatch h
  | .arr _, .str _ => isFalse fun h => nomatch h
  | .arr _, .obj _ => isFalse fun h => nomatch h
  | .obj _, .null => isFalse fun h => nomatch h
  | .obj _, .bool _ => isFalse fun h => nomatch h
  | .obj _, .num _ => isFalse fun h => nomatch h
  | .obj _, .str _ => isFalse fun h => nomatch h
  | .obj _, .arr _ => isFalse fun h => nomatch h

/-- Decidable equality for lists of `JsonVal`. -/
def JsonVal.deqList : (a b : List JsonVal) → Decidable (a = b)
  | [], [] => isTrue rfl
  | [], _ :: _ => isFalse fun h => nomatch h
  | _ :: _, [] => isFalse fun h => nomatch h
  | x :: xs, y :: ys =>
    match JsonVal.deq x y with
    | isFalse h1 => isFalse (by intro hc; cases hc; exact h1 rfl)
    | isTrue h1 =>
      match JsonVal.deqList xs ys with
      | isTrue h2 => isTrue (by rw [h1, h2])
      | isFalse h2 => isFalse (by intro hc; cases hc; exact h2 rfl)

/-- Decidable equality for `JsonVal` field lists. -/
def JsonVal.deqFields : (a b : List (String × JsonVal)) → Decidable (a = b)
  | [], [] => isTrue rfl
  | [], _ :: _ => isFalse fun h => nomatch h
  | _ :: _, [] => isFalse fun h => nomatch h
  | (k, v) :: fs, (k', v') :: gs =>
    if hk : k = k' then
      match JsonVal.deq v v' with
      | isFalse h1 => isFalse (by intro hc; cases hc; exact h1 rfl)
      | isTrue h1 =>
        match JsonVal.deqFields fs gs with
        | isTrue h2 => isTrue (by rw [hk, h1, h2])
        | isFalse h2 => isFalse (by intro hc; cases hc; exact h2 rfl)
    else isFalse (by intro hc; cases hc; exact hk rfl)

end

instance : DecidableEq JsonVal := JsonVal.deq

/-! ## Data model (spec §3; field shapes as used by the filter engine) -/

/-- A session record. Label values are strings (spec §3); metadata values are
free-form JSON. -/
structure Session where
  id : String
  name : String
  started_at : Int
  ended_at : Option Int
  labels : List (String × String)
  meta : List (String × JsonVal)
deriving DecidableEq

/-- An LLM-call event. -/
structure Event where
  session_id : String
  provider : String
  api : String
  request : Option (List (String × JsonVal))
  response : Option (List (String × JsonVal))
  error : Option String
  started_at : Int
  ended_at : Int
  duration_ms : Int
  span_id : String
  parent_span_id : Option String
  evaluations : List JsonVal
deriving DecidableEq

/-- A local function-call event. -/
structure FunctionEvent where
  session_id : String
  provider : String
  name : Option String
  module : Option String
  error : Option String
  started_at : Int
  ended_at : Int
  duration_ms : Int
  span_id : String
  parent_span_id : Option String
  evaluations : List JsonVal
deriving DecidableEq

/-- A pre-nested trace node (AIOBS homogeneous variant); passed through
untouched by the filter engine. -/
inductive TraceNode where
  | node (event_type : String) (provider : String) (api : String)
      (name : Option String) (request : Option (List (String × JsonVal)))
      (duration_ms : Int) (children : List TraceNode)

/-- The aggregate response. `enh_prompt_traces` is an opaque payload the
filter engine never inspects. -/
structure SessionsResponse where
  sessions : List Session
  events : List Event
  function_events : List FunctionEvent
  trace_tree : List TraceNode
  enh_prompt_traces : List JsonVal
  generated_at : Int
  version : String

/-! ## Python truthiness of optional criteria -/

/-- Truthiness of `str | None`: `None` and `""` are falsy. -/
def optStrTruthy : Option String → Bool
  | some s => !s.isEmpty
  | none => false

/-- Truthiness of `float | None`: `None` and `0` are falsy. -/
def optIntTruthy : Option Int → Bool
  | some n => n != 0
  | none => false

/-- Truthiness of `list | None`: `None` and `[]` are falsy. -/
def optListTruthy {α : Type} : Option (List α) → Bool
  | some l => !l.isEmpty
  | none => false

/-! ## Predicate helpers (src/shepherd/cli/sessions.py) -/

/-- `_session_matches_query`: case-insensitive substring match against id,
name, label values and stringified metadata values. -/
def _session_matches_query (session : Session) (query : String) : Bool :=
  let query_lower := pyLower query
  strContains (pyLower session.id) query_lower
  || strContains (pyLower session.name) query_lower
  || session.labels.any (fun kv => strContains (pyLower kv.2) query_lower)
  || session.meta.any (fun kv => strContains (pyLower (pyStr kv.2)) query_lower)

/-- First-match lookup in the label map (keys are unique in a Python dict). -/
def lookupLabel (labels : List (String × String)) (k : String) : Option String :=
  (labels.find? (fun kv => kv.1 == k)).map (·.2)

/-- `_session_matches_labels`: the session must contain every given key with
an exactly-equal value. -/
def _session_matches_labels (session : Session) (labels : List (String × String)) : Bool :=
  labels.all fun kv =>
    match lookupLabel session.labels kv.1 with
    | none => false
    | some v => v == kv.2

/-- `_session_has_provider`. -/
def _session_has_provider (session : Session) (events : List Event)
    (function_events : List FunctionEvent) (provider : String) : Bool :=
  let provider_lower := pyLower provider
  events.any (fun e => e.session_id == session.id && pyLower e.provider == provider_lower)
  || function_events.any (fun e => e.session_id == session.id && pyLower e.provider == provider_lower)

/-- `_session_has_model`: an event of the session whose truthy request payload
has a `model` field whose stringification contains the filter. -/
def _session_has_model (session : Session) (events : List Event) (model : String) : Bool :=
  let model_lower := pyLower model
  events.any fun e =>
    e.session_id == session.id &&
      (match e.request with
       | none => false
       | some req =>
         !req.isEmpty && strContains (pyLower (pyStr (dictGetD req "model" (.str "")))) model_lower)

/-- `_session_has_errors`: some event of the session has a truthy error. -/
def _session_has_errors (session : Session) (events : List Event)
    (function_events : List FunctionEvent) : Bool :=
  events.any (fun e => e.session_id == session.id && optStrTruthy e.error)
  || function_events.any (fun e => e.session_id == session.id && optStrTruthy e.error)

/-- `_session_has_function`: truthy name or module containing the filter. -/
def _session_has_function (session : Session) (function_events : List FunctionEvent)
    (function_name : String) : Bool :=
  let name_lower := pyLower function_name
  function_events.any fun e =>
    e.session_id == session.id &&
      ((optStrTruthy e.name && strContains (pyLower (e.name.getD "")) name_lower)
       || (optStrTruthy e.module && strContains (pyLower (e.module.getD "")) name_lower))

/-- `_eval_is_failed`: failure detection on an opaque evaluation record. -/
def _eval_is_failed (evaluation : JsonVal) : Bool :=
  match evaluation with
  | .obj fields =>
    if isFalseVal (dictGet fields "passed") then true
    else if isFalseVal (dictGet fields "result") then true
    else if [("failed" : String), "fail", "error"].contains
        (pyLower (pyStr (dictGetD fields "status" (.str "")))) then true
    else if isFalseVal (dictGet fields "success") then true
    else false
  | _ => false

/-- `_session_has_failed_evals`. -/
def _session_has_failed_evals (session : Session) (events : List Event)
    (function_events : List FunctionEvent) : Bool :=
  events.any (fun e => e.session_id == session.id && e.evaluations.any _eval_is_failed)
  || function_events.any (fun e => e.session_id == session.id && e.evaluations.any _eval_is_failed)

/-- The body of the per-session loop of `_filter_sessions`: the chain of
`continue` guards, one per criterion, in source order. -/
def _session_passes (response : SessionsResponse)
    (query : Option String) (labels : Option (List (String × String)))
    (provider : Option String) (model : Option String) (function : Option String)
    (after : Option Int) (before : Option Int)
    (has_errors : Bool) (evals_failed : Bool) (session : Session) : Bool :=
  if optStrTruthy query && !_session_matches_query session (query.getD "") then false
  else if optListTruthy labels && !_session_matches_labels session (labels.getD []) then false
  else if optStrTruthy provider
      && !_session_has_provider session response.events response.function_events
            (provider.getD "") then false
  else if optStrTruthy model
      && !_session_has_model session response.events (model.getD "") then false
  else if optStrTruthy function
      && !_session_has_function session response.function_events (function.getD "") then false
  else if optIntTruthy after && decide (session.started_at < after.getD 0) then false
  else if optIntTruthy before && decide (session.started_at > before.getD 0) then false
  else if has_errors
      && !_session_has_errors session response.events response.function_events then false
  else if evals_failed
      && !_session_has_failed_evals session response.events response.function_events then false
  else true

/-- `_filter_sessions`: retain the sessions passing every guard, then filter
events and function events by membership of their session id in the retained
id set; auxiliary fields pass through. -/
def _filter_sessions (response : SessionsResponse)
    (query : Option String) (labels : Option (List (String × String)))
    (provider : Option String) (model : Option String) (function : Option String)
    (after : Option Int) (before : Option Int)
    (has_errors : Bool) (evals_failed : Bool) : SessionsResponse :=
  let filtered_sessions := response.sessions.filter
    (_session_passes response query labels provider model function after before
      has_errors evals_failed)
  let session_ids := filtered_sessions.map (·.id)
  let filtered_events := response.events.filter (fun e => session_ids.contains e.session_id)
  let filtered_function_events :=
    response.function_events.filter (fun e => session_ids.contains e.session_id)
  { sessions := filtered_sessions
    events := filtered_events
    function_events := filtered_function_events
    trace_tree := response.trace_tree
    enh_prompt_traces := response.enh_prompt_traces
    generated_at := response.generated_at
    version := response.version }

/-! ## Client-side truncation (list_sessions / search_sessions) -/

/-- Python slice `xs[:k]`, including the negative-stop convention. -/
def pySliceTo {α : Type} (xs : List α) (k : Int) : List α :=
  if 0 ≤ k then xs.take k.toNat else xs.take ((xs.length : Int) + k).toNat

/-- The `if limit and sessions: sessions = sessions[:limit]` step shared by
`list_sessions` and `search_sessions` (limit `None` and `0` are falsy). -/
def applyLimit {α : Type} (limit : Option Int) (xs : List α) : List α :=
  match limit with
  | none => xs
  | some l => if l == 0 then xs else if xs.isEmpty then xs else pySliceTo xs l

/-! ## Langfuse observation tree reconstruction (src/shepherd/cli/langfuse.py) -/

/-- A Langfuse observation record (the fully-typed variant). -/
structure LangfuseObservation where
  id : String
  parent_observation_id : Option String
  type : String
  name : Option String
  model : Option String
  latency : Option Int
deriving DecidableEq

/-- An entry of a trace's observation list: a full record or a bare id
string (the loosely-typed union `str | LangfuseObservation`). -/
inductive ObsEntry where
  | ref (id : String)
  | full (obs : LangfuseObservation)
deriving DecidableEq

/-- A node added to the rendered rich tree by `_build_observation_tree`:
either a dim reference-id line (fallback path) or an observation with its
recursively added children. -/
inductive TreeItem where
  | refItem (id : String)
  | obsItem (obs : LangfuseObservation) (children : List TreeItem)

mutual

/-- Decidable equality for `TreeItem` (hand-written: nested `List`). -/
def TreeItem.deq : (a b : TreeItem) → Decidable (a = b)
  | .refItem i, .refItem j =>
    if h : i = j then isTrue (by rw [h]) else isFalse (by intro hc; cases hc; exact h rfl)
  | .obsItem o cs, .obsItem o' cs' =>
    if h : o = o' then
      match TreeItem.deqList cs cs' with
      | isTrue h2 => isTrue (by rw [h, h2])
      | isFalse h2 => isFalse (by intro hc; cases hc; exact h2 rfl)
    else isFalse (by intro hc; cases hc; exact h rfl)
  | .refItem _, .obsItem _ _ => isFalse fun h => nomatch h
  | .obsItem _ _, .refItem _ => isFalse fun h => nomatch h

/-- Decidable equality for lists of `TreeItem`. -/
def TreeItem.deqList : (a b : List TreeItem) → Decidable (a = b)
  | [], [] => isTrue rfl
  | [], _ :: _ => isFalse fun h => nomatch h
  | _ :: _, [] => isFalse fun h => nomatch h
  | x :: xs, y :: ys =>
    match TreeItem.deq x y with
    | isFalse h1 => isFalse (by intro hc; cases hc; exact h1 rfl)
    | isTrue h1 =>
      match TreeItem.deqList xs ys with
      | isTrue h2 => isTrue (by rw [h1, h2])
      | isFalse h2 => isFalse (by intro hc; cases hc; exact h2 rfl)

end

instance : DecidableEq TreeItem := TreeItem.deq

/-- The children list of a rendered node. -/
def TreeItem.kids : TreeItem → List TreeItem
  | .refItem _ => []
  | .obsItem _ cs => cs

/-- The observation at a rendered node, if any. -/
def TreeItem.rootObs : TreeItem → Option LangfuseObservation
  | .refItem _ => none
  | .obsItem o _ => some o

/-- The full records of an observation list (the `isinstance` filter). -/
def fullObservations (observations : List ObsEntry) : List LangfuseObservation :=
  observations.filterMap fun o =>
    match o with
    | .full obs => some obs
    | .ref _ => none

/-- Append `o` to the bucket of key `k`, creating the bucket if absent
(`if parent_id not in children: children[parent_id] = []` then append). -/
def bucketAdd (m : List (Option String × List LangfuseObservation)) (k : Option String)
    (o : LangfuseObservation) : List (Option String × List LangfuseObservation) :=
  match m with
  | [] => [(k, [o])]
  | (k', v) :: rest =>
    if k' == k then (k', v ++ [o]) :: rest else (k', v) :: bucketAdd rest k o

/-- The parent→children map: starts as `{None: []}`, then each full record is
appended to the bucket of its `parent_observation_id`. (The source also
builds an `obs_by_id` dict it never reads; it is omitted.) -/
def childrenMap (full : List LangfuseObservation) :
    List (Option String × List LangfuseObservation) :=
  full.foldl (fun m o => bucketAdd m o.parent_observation_id o) [(none, [])]

/-- `children.get(k, [])`. -/
def mapGetD (m : List (Option String × List LangfuseObservation)) (k : Option String) :
    List LangfuseObservation :=
  match m.find? (fun kv => kv.1 == k) with
  | some kv => kv.2
  | none => []

/-- `add_node`, indexed by explicit recursion fuel: the Python recursion has
no structural bound (with duplicate record ids it diverges), so the
embedding makes the call depth explicit; `treeBuildStabilizes` expresses
that from some fuel on the result no longer changes, i.e. the Python
recursion terminates. -/
def addNode (cmap : List (Option String × List LangfuseObservation)) :
    Nat → LangfuseObservation → TreeItem
  | 0, o => .obsItem o []
  | n + 1, o => .obsItem o ((mapGetD cmap (some o.id)).map (addNode cmap n))

/-- `_build_observation_tree` at a given recursion fuel. -/
def _build_observation_tree_fuel (fuel : Nat) (observations : List ObsEntry) : List TreeItem :=
  let full_observations := fullObservations observations
  if full_observations.isEmpty then
    observations.filterMap fun o =>
      match o with
      | .ref s => some (.refItem s)
      | .full _ => none
  else
    let children := childrenMap full_observations
    (mapGetD children none).map (addNode children fuel)

/-- `_build_observation_tree`, with fuel = number of full records (sufficient
whenever the Python recursion terminates; see the stabilization theorems). -/
def _build_observation_tree (observations : List ObsEntry) : List TreeItem :=
  _build_observation_tree_fuel (fullObservations observations).length observations

/-- The Python recursion terminates on this input: from some fuel on, the
emitted forest no longer changes. -/
def treeBuildStabilizes (observations : List ObsEntry) : Prop :=
  ∃ k, ∀ n, k ≤ n →
    _build_observation_tree_fuel n observations = _build_observation_tree_fuel k observations

mutual

/-- Whether observation `o` is emitted somewhere in a rendered subtree. -/
def itemContains (o : LangfuseObservation) : TreeItem → Bool
  | .refItem _ => false
  | .obsItem o' cs => o' == o || forestContains o cs

/-- Whether observation `o` is emitted somewhere in a rendered forest. -/
def forestContains (o : LangfuseObservation) : List TreeItem → Bool
  | [] => false
  | t :: ts => itemContains o t || forestContains o ts

end

/-- The expected rendering of a single parent chain: each record nested under
the previous one. -/
def linearChain (o : LangfuseObservation) : List LangfuseObservation → TreeItem
  | [] => .obsItem o []
  | c :: rest => .obsItem o [linearChain c rest]

/-- Descend `n` times into the first child of a rendered node. -/
def descendFirst : Nat → TreeItem → Option TreeItem
  | 0, t => some t
  | n + 1, t =>
    match t.kids with
    | [] => none
    | c :: _ => descendFirst n c

/-! ## Concrete fixtures used by witnesses and counterexamples -/

/-- Fixture: session `a`, labelled `env=prod`. -/
def sessA : Session :=
  { id := "a", name := "agent-run", started_at := 100, ended_at := some 200
    labels := [("env", "prod")], meta := [] }

/-- Fixture: session `b`, labelled `env=dev`. -/
def sessB : Session :=
  { id := "b", name := "other-run", started_at := 200, ended_at := none
    labels := [("env", "dev")], meta := [] }

/-- Fixture: an openai event of session `a` carrying an error. -/
def evA : Event :=
  { session_id := "a", provider := "openai", api := "chat.completions.create"
    request := some [("model", .str "gpt-4")], response := none, error := some "boom"
    started_at := 100, ended_at := 101, duration_ms := 1000, span_id := "s1"
    parent_span_id := none, evaluations := [] }

/-- Fixture: a two-session response with one failing event on session `a`. -/
def respAB : SessionsResponse :=
  { sessions := [sessA, sessB], events := [evA], function_events := []
    trace_tree := [], enh_prompt_traces := [], generated_at := 7, version := "1" }

/-- Fixture: a session that started before the epoch. -/
def sessNeg : Session :=
  { id := "n", name := "pre-epoch", started_at := -1, ended_at := none
    labels := [], meta := [] }

/-- Fixture: a response holding only the pre-epoch session. -/
def respNeg : SessionsResponse :=
  { sessions := [sessNeg], events := [], function_events := [], trace_tree := []
    enh_prompt_traces := [], generated_at := 0, version := "1" }

/-- Fixture: a minimal observation record. -/
def mkObs (i : String) (p : Option String) : LangfuseObservation :=
  { id := i, parent_observation_id := p, type := "SPAN", name := none
    model := none, latency := none }

/-! ## Helper lemmas for the filter engine -/

/-- One `continue` guard of the per-session loop: the loop body survives
`if a && b then continue` iff `a` implies `¬b` and it survives the rest. -/
theorem bool_guard_pos (a b r : Bool) :
    (if a && b then false else r) = true ↔ (a = true → b = false) ∧ r = true := by
  cases a <;> cases b <;> cases r <;> simp

/-- The per-session loop body is a conjunction: one conjunct per supplied
criterion. -/
theorem _session_passes_iff (r : SessionsResponse)
    (q : Option String) (l : Option (List (String × String)))
    (p m f : Option String) (a b : Option Int) (he ef : Bool) (s : Session) :
    _session_passes r q l p m f a b he ef s = true ↔
      (optStrTruthy q = true → _session_matches_query s (q.getD "") = true)
      ∧ (optListTruthy l = true → _session_matches_labels s (l.getD []) = true)
      ∧ (optStrTruthy p = true →
          _session_has_provider s r.events r.function_events (p.getD "") = true)
      ∧ (optStrTruthy m = true → _session_has_model s r.events (m.getD "") = true)
      ∧ (optStrTruthy f = true →
          _session_has_function s r.function_events (f.getD "") = true)
      ∧ (optIntTruthy a = true → a.getD 0 ≤ s.started_at)
      ∧ (optIntTruthy b = true → s.started_at ≤ b.getD 0)
      ∧ (he = true → _session_has_errors s r.events r.function_events = true)
      ∧ (ef = true → _session_has_failed_evals s r.events r.function_events = true) := by
  unfold _session_passes
  rw [bool_guard_pos, bool_guard_pos, bool_guard_pos, bool_guard_pos, bool_guard_pos,
    bool_guard_pos, bool_guard_pos, bool_guard_pos, bool_guard_pos]
  simp [not_lt, and_assoc]

/-- Membership in the filtered sessions list. -/
theorem mem_filter_sessions_iff (r : SessionsResponse)
    (q : Option String) (l : Option (List (String × String)))
    (p m f : Option String) (a b : Option Int) (he ef : Bool) (s : Session) :
    s ∈ (_filter_sessions r q l p m f a b he ef).sessions ↔
      s ∈ r.sessions ∧ _session_passes r q l p m f a b he ef s = true := by
  unfold _filter_sessions
  simp [List.mem_filter]

/-! ## C3: evaluation-failure detection -/

/-- C3: `_eval_is_failed` returns true for `{"passed": False}`,
`{"result": False}`, `{"success": False}`, and for any mapping whose
stringified `status` value lowercases to `failed`, `fail` or `error`; it
returns false (and, being a total function, never raises) for
`{"passed": True}`, the empty mapping, and any non-mapping input. -/
theorem c3_eval_is_failed_detection :
    _eval_is_failed (.obj [("passed", .bool false)]) = true
    ∧ _eval_is_failed (.obj [("result", .bool false)]) = true
    ∧ _eval_is_failed (.obj [("success", .bool false)]) = true
    ∧ _eval_is_failed (.obj [("status", .str "FAILED")]) = true
    ∧ _eval_is_failed (.obj [("status", .str "error")]) = true
    ∧ (∀ fields v, dictGet fields "status" = some v →
        pyLower (pyStr v) ∈ [("failed" : String), "fail", "error"] →
        _eval_is_failed (.obj fields) = true)
    ∧ _eval_is_failed (.obj [("passed", .bool true)]) = false
    ∧ _eval_is_failed (.obj []) = false
    ∧ (∀ v, isObjVal v = false → _eval_is_failed v = false) := by
  refine ⟨by decide, by decide, by decide, by decide, by decide, ?_, by decide, by decide, ?_⟩
  · intro fields v hv hlow
    have hd : dictGetD fields "status" (.str "") = v := by simp [dictGetD, hv]
    simp only [List.mem_cons, List.not_mem_nil, or_false] at hlow
    simp [_eval_is_failed, hd]
    tauto
  · intro v hv
    cases v <;> simp_all [_eval_is_failed, isObjVal]

/-- C3 witness: the general `status` clause applied at the concrete mapping
`{"status": "Fail"}`. -/
theorem c3_eval_is_failed_witness :
    _eval_is_failed (.obj [("status", .str "Fail")]) = true :=
  c3_eval_is_failed_detection.2.2.2.2.2.1 [("status", .str "Fail")] (.str "Fail")
    rfl (by decide)

/-! ## C5: client-side truncation (corrected) -/

/-- C5 counterexample: truncating with limit 0 does NOT return an empty
list — `if limit` treats 0 as falsy, so the list is returned unchanged. -/
theorem c5_cex_limit_zero :
    applyLimit (some 0) [sessA] = [sessA] ∧ applyLimit (some 0) [sessA] ≠ [] := by
  exact ⟨rfl, by decide⟩

/-- C5 amended: truncation is a deterministic order-preserving prefix-take
for a positive limit; a list no longer than the limit is returned unchanged;
limit 0 (falsy) is treated as no limit and returns the list unchanged; the
operation is total (never an error). -/
theorem c5_truncation_amended :
    ∀ (xs : List Session) (l : Int),
      applyLimit none xs = xs
      ∧ applyLimit (some 0) xs = xs
      ∧ (0 < l → applyLimit (some l) xs = xs.take l.toNat)
      ∧ ((xs.length : Int) ≤ l → 0 < l → applyLimit (some l) xs = xs) := by
  intro xs l
  have htake : 0 < l → applyLimit (some l) xs = xs.take l.toNat := by
    intro hl
    have hl0 : (l == 0) = false := by simp; omega
    by_cases hxs : xs.isEmpty
    · rw [List.isEmpty_iff] at hxs
      simp [applyLimit, hxs]
    · simp only [applyLimit, hl0, Bool.false_eq_true, if_false, hxs]
      simp [pySliceTo, hl.le]
  refine ⟨rfl, by simp [applyLimit], htake, ?_⟩
  · intro hlen hl
    rw [htake hl]
    apply List.take_of_length_le
    omega

/-- C5 witness: the positive-limit clause applied at limit 1 on a
two-session list. -/
theorem c5_truncation_witness :
    applyLimit (some 1) [sessA, sessB] = ([sessA, sessB].take (1 : Int).toNat) :=
  (c5_truncation_amended [sessA, sessB] 1).2.2.1 (by decide)

/-! ## C9: frame — auxiliary response fields pass through unchanged -/

/-- C9: `_filter_sessions` passes `trace_tree`, `enh_prompt_traces`,
`generated_at` and `version` through unchanged for every input and every
criteria combination. -/
theorem c9_filter_frame_passthrough :
    ∀ (r : SessionsResponse) (q : Option String) (l : Option (List (String × String)))
      (p m f : Option String) (a b : Option Int) (he ef : Bool),
      (_filter_sessions r q l p m f a b he ef).trace_tree = r.trace_tree
      ∧ (_filter_sessions r q l p m f a b he ef).enh_prompt_traces = r.enh_prompt_traces
      ∧ (_filter_sessions r q l p m f a b he ef).generated_at = r.generated_at
      ∧ (_filter_sessions r q l p m f a b he ef).version = r.version := by
  intro r q l p m f a b he ef
  exact ⟨rfl, rfl, rfl, rfl⟩

/-! ## C1: AND semantics, subset by identifier, monotone narrowing -/

/-- C1: a session is in the filtered list iff it is in the input list and
independently satisfies every supplied criterion (a criterion is supplied
when its argument is truthy); consequently the filtered session ids are a
subset of the original ones, and supplying additional criteria (extending a
criteria combination pointwise) never enlarges the result. -/
theorem c1_filter_and_semantics :
    ∀ (r : SessionsResponse) (q : Option String) (l : Option (List (String × String)))
      (p m f : Option String) (a b : Option Int) (he ef : Bool)
      (q' : Option String) (l' : Option (List (String × String)))
      (p' m' f' : Option String) (a' b' : Option Int) (he' ef' : Bool) (s : Session),
      (s ∈ (_filter_sessions r q l p m f a b he ef).sessions ↔
        s ∈ r.sessions
        ∧ (optStrTruthy q = true → _session_matches_query s (q.getD "") = true)
        ∧ (optListTruthy l = true → _session_matches_labels s (l.getD []) = true)
        ∧ (optStrTruthy p = true →
            _session_has_provider s r.events r.function_events (p.getD "") = true)
        ∧ (optStrTruthy m = true → _session_has_model s r.events (m.getD "") = true)
        ∧ (optStrTruthy f = true →
            _session_has_function s r.function_events (f.getD "") = true)
        ∧ (optIntTruthy a = true → a.getD 0 ≤ s.started_at)
        ∧ (optIntTruthy b = true → s.started_at ≤ b.getD 0)
        ∧ (he = true → _session_has_errors s r.events r.function_events = true)
        ∧ (ef = true → _session_has_failed_evals s r.events r.function_events = true))
      ∧ (∀ t ∈ (_filter_sessions r q l p m f a b he ef).sessions,
          t.id ∈ r.sessions.map (·.id))
      ∧ ((q = none ∨ q' = q) → (l = none ∨ l' = l) → (p = none ∨ p' = p) →
          (m = none ∨ m' = m) → (f = none ∨ f' = f) → (a = none ∨ a' = a) →
          (b = none ∨ b' = b) → (he = true → he' = true) → (ef = true → ef' = true) →
          s ∈ (_filter_sessions r q' l' p' m' f' a' b' he' ef').sessions →
          s ∈ (_filter_sessions r q l p m f a b he ef).sessions) := by
  intro r q l p m f a b he ef q' l' p' m' f' a' b' he' ef' s
  refine ⟨?_, ?_, ?_⟩
  · rw [mem_filter_sessions_iff, _session_passes_iff]
  · intro t ht
    rw [mem_filter_sessions_iff] at ht
    exact List.mem_map_of_mem _ ht.1
  · intro hq hl hp hm hf ha hb hhe hef hmem
    rw [mem_filter_sessions_iff, _session_passes_iff] at hmem ⊢
    obtain ⟨hs, d1, d2, d3, d4, d5, d6, d7, d8, d9⟩ := hmem
    refine ⟨hs, ?_, ?_, ?_, ?_, ?_, ?_, ?_, ?_, ?_⟩
    · rcases hq with h | h
      · intro ht; rw [h] at ht; exact absurd ht (by simp [optStrTruthy])
      · rw [← h]; exact d1
    · rcases hl with h | h
      · intro ht; rw [h] at ht; exact absurd ht (by simp [optListTruthy])
      · rw [← h]; exact d2
    · rcases hp with h | h
      · intro ht; rw [h] at ht; exact absurd ht (by simp [optStrTruthy])
      · rw [← h]; exact d3
    · rcases hm with h | h
      · intro ht; rw [h] at ht; exact absurd ht (by simp [optStrTruthy])
      · rw [← h]; exact d4
    · rcases hf with h | h
      · intro ht; rw [h] at ht; exact absurd ht (by simp [optStrTruthy])
      · rw [← h]; exact d5
    · rcases ha with h | h
      · intro ht; rw [h] at ht; exact absurd ht (by simp [optIntTruthy])
      · rw [← h]; exact d6
    · rcases hb with h | h
      · intro ht; rw [h] at ht; exact absurd ht (by simp [optIntTruthy])
      · rw [← h]; exact d7
    · intro ht; exact d8 (hhe ht)
    · intro ht; exact d9 (hef ht)

/-- C1 witness: on the two-session fixture, filtering by `has_errors` keeps
session `a` (membership established through the characterization). -/
theorem c1_filter_and_semantics_witness :
    sessA ∈ (_filter_sessions respAB none none none none none none none true false).sessions :=
  ((c1_filter_and_semantics respAB none none none none none none none true false
      none none none none none none none true false sessA).1).mpr
    ⟨by decide, by decide, by decide, by decide, by decide, by decide, by decide,
      by decide, by decide, by decide⟩

/-! ## C2: event/session consistency of the filtered response -/

/-- C2: in every filtered response, events and function events are selected
purely by membership of their `session_id` in the retained session-id set, so
each one's `session_id` is the id of some retained session. -/
theorem c2_event_session_consistency :
    ∀ (r : SessionsResponse) (q : Option String) (l : Option (List (String × String)))
      (p m f : Option String) (a b : Option Int) (he ef : Bool),
      ((_filter_sessions r q l p m f a b he ef).events
        = r.events.filter (fun e =>
            ((_filter_sessions r q l p m f a b he ef).sessions.map (·.id)).contains
              e.session_id))
      ∧ ((_filter_sessions r q l p m f a b he ef).function_events
        = r.function_events.filter (fun e =>
            ((_filter_sessions r q l p m f a b he ef).sessions.map (·.id)).contains
              e.session_id))
      ∧ (∀ e ∈ (_filter_sessions r q l p m f a b he ef).events,
          ∃ s ∈ (_filter_sessions r q l p m f a b he ef).sessions, e.session_id = s.id)
      ∧ (∀ e ∈ (_filter_sessions r q l p m f a b he ef).function_events,
          ∃ s ∈ (_filter_sessions r q l p m f a b he ef).sessions, e.session_id = s.id) := by
  intro r q l p m f a b he ef
  refine ⟨rfl, rfl, ?_, ?_⟩
  · intro e hmem
    rw [show (_filter_sessions r q l p m f a b he ef).events
        = r.events.filter (fun e =>
            ((_filter_sessions r q l p m f a b he ef).sessions.map (·.id)).contains
              e.session_id) from rfl] at hmem
    have hin := (List.mem_filter.mp hmem).2
    rw [List.contains_eq_any_beq] at hin
    simp only [List.any_eq_true, beq_iff_eq] at hin
    obtain ⟨i, hi, hieq⟩ := hin
    obtain ⟨t, ht, hteq⟩ := List.mem_map.mp hi
    exact ⟨t, ht, by rw [hieq, hteq]⟩
  · intro e hmem
    rw [show (_filter_sessions r q l p m f a b he ef).function_events
        = r.function_events.filter (fun e =>
            ((_filter_sessions r q l p m f a b he ef).sessions.map (·.id)).contains
              e.session_id) from rfl] at hmem
    have hin := (List.mem_filter.mp hmem).2
    rw [List.contains_eq_any_beq] at hin
    simp only [List.any_eq_true, beq_iff_eq] at hin
    obtain ⟨i, hi, hieq⟩ := hin
    obtain ⟨t, ht, hteq⟩ := List.mem_map.mp hi
    exact ⟨t, ht, by rw [hieq, hteq]⟩

/-- C2 witness: the retained openai event of the fixture belongs to retained
session `a`. -/
theorem c2_event_session_consistency_witness :
    ∃ s ∈ (_filter_sessions respAB none none none none none none none true false).sessions,
      evA.session_id = s.id :=
  (c2_event_session_consistency respAB none none none none none none none
      true false).2.2.1 evA (by decide)

/-! ## C7: date-range criterion (corrected: a zero bound is treated as
unsupplied by `if after ...` / `if before ...` truthiness) -/

/-- C7 counterexample: `after = 0` is supplied, yet a session that started
before the epoch (`started_at = -1 < 0`) is retained, contradicting the
claimed "satisfies iff `started_at ≥ after`" reading for every supplied
bound. -/
theorem c7_cex_after_zero :
    (_filter_sessions respNeg none none none none none (some 0) none false false).sessions
      = [sessNeg]
    ∧ sessNeg.started_at < 0 := by
  exact ⟨by decide, by decide⟩

/-- A truthiness-guarded bound is equivalent to a guarded universal. -/
theorem optIntGuard_iff (o : Option Int) (P : Int → Prop) :
    ((optIntTruthy o = true → P (o.getD 0)) ↔ (∀ x, o = some x → x ≠ 0 → P x)) := by
  cases o with
  | none => simp [optIntTruthy]
  | some x =>
    by_cases hx : x = 0
    · subst hx; simp [optIntTruthy]
    · simp [optIntTruthy, hx]

/-- C7 amended: with only date criteria, a session is retained iff its
`started_at` is ≥ every supplied nonzero `after` and ≤ every supplied
nonzero `before` (inclusive bounds); an unsupplied bound — including the
falsy bound 0 — does not filter any session out. -/
theorem c7_date_bounds_amended :
    ∀ (r : SessionsResponse) (a b : Option Int) (s : Session),
      s ∈ (_filter_sessions r none none none none none a b false false).sessions ↔
        s ∈ r.sessions
        ∧ (∀ x, a = some x → x ≠ 0 → x ≤ s.started_at)
        ∧ (∀ y, b = some y → y ≠ 0 → s.started_at ≤ y) := by
  intro r a b s
  rw [mem_filter_sessions_iff, _session_passes_iff]
  rw [optIntGuard_iff a (fun x => x ≤ s.started_at),
    optIntGuard_iff b (fun y => s.started_at ≤ y)]
  simp [optStrTruthy, optListTruthy]

/-- C7 witness: the amended characterization applied at `after = 150` keeps
session `b` (started at 200). -/
theorem c7_date_bounds_witness :
    sessB ∈ (_filter_sessions respAB none none none none none (some 150) none
      false false).sessions :=
  (c7_date_bounds_amended respAB (some 150) none sessB).mpr
    ⟨by decide,
     by intro x h hne; cases h; decide,
     by intro y h hne; cases h⟩

/-! ## Helper lemmas for the observation tree -/

/-- Lookup in a cons of the bucket map. -/
theorem mapGetD_cons (a : Option String) (w : List LangfuseObservation)
    (rest : List (Option String × List LangfuseObservation)) (p : Option String) :
    mapGetD ((a, w) :: rest) p = if a == p then w else mapGetD rest p := by
  unfold mapGetD
  cases hb : (a == p) with
  | true => simp [List.find?, hb]
  | false => simp [List.find?, hb]

/-- Bucket lookup after one insertion. -/
theorem mapGetD_bucketAdd (m : List (Option String × List LangfuseObservation))
    (k p : Option String) (o : LangfuseObservation) :
    mapGetD (bucketAdd m k o) p
      = if p = k then mapGetD m p ++ [o] else mapGetD m p := by
  induction m with
  | nil =>
    by_cases h : p = k
    · subst h
      rw [bucketAdd, mapGetD_cons]
      simp [mapGetD]
    · rw [bucketAdd, mapGetD_cons]
      have hb : (k == p) = false := beq_false_of_ne (fun he => h he.symm)
      simp [hb, h, mapGetD]
  | cons kv rest ih =>
    obtain ⟨k', v⟩ := kv
    by_cases hk : k' = k
    · subst hk
      rw [show bucketAdd ((k', v) :: rest) k' o = (k', v ++ [o]) :: rest from by
        simp [bucketAdd]]
      rw [mapGetD_cons, mapGetD_cons]
      by_cases hp : (k' == p) = true
      · have hpe : p = k' := (beq_iff_eq.mp hp).symm
        simp [hp, hpe]
      · have hpe : ¬p = k' := fun he => hp (by simp [he])
        simp [hp, hpe]
    · rw [show bucketAdd ((k', v) :: rest) k o = (k', v) :: bucketAdd rest k o from by
        have hb : (k' == k) = false := beq_false_of_ne hk
        simp [bucketAdd, hb]]
      rw [mapGetD_cons, mapGetD_cons, ih]
      by_cases hp : (k' == p) = true
      · have hpe : p = k' := (beq_iff_eq.mp hp).symm
        have hpk : ¬p = k := fun he => hk (hpe ▸ he)
        simp [hp, hpk]
      · simp [hp]

/-- Folding the records into the map appends, per bucket, the records whose
parent id equals the bucket key, in input order. -/
theorem mapGetD_foldl (l : List LangfuseObservation)
    (m : List (Option String × List LangfuseObservation)) (p : Option String) :
    mapGetD (l.foldl (fun m o => bucketAdd m o.parent_observation_id o) m) p
      = mapGetD m p ++ (l.filter (fun o => o.parent_observation_id == p)) := by
  induction l generalizing m with
  | nil => simp
  | cons o t ih =>
    rw [List.foldl_cons, ih, mapGetD_bucketAdd]
    by_cases h : p = o.parent_observation_id
    · have hb : (o.parent_observation_id == p) = true := by simp [h.symm]
      simp [h, hb]
    · have hb : (o.parent_observation_id == p) = false :=
        beq_false_of_ne (fun he => h he.symm)
      simp [h, hb]

/-- The children map sends each key to the input-ordered list of records
whose parent id is that key. -/
theorem childrenMap_get (full : List LangfuseObservation) (p : Option String) :
    mapGetD (childrenMap full) p
      = full.filter (fun o => o.parent_observation_id == p) := by
  unfold childrenMap
  rw [mapGetD_foldl]
  have hinit : mapGetD [(none, [])] p = [] := by
    cases p <;> simp [mapGetD, List.find?]
  rw [hinit, List.nil_append]

/-- `addNode` at positive fuel emits the node with its bucket's children. -/
theorem addNode_succ (cmap : List (Option String × List LangfuseObservation))
    (n : Nat) (o : LangfuseObservation) :
    addNode cmap (n + 1) o
      = .obsItem o ((mapGetD cmap (some o.id)).map (addNode cmap n)) := rfl

/-- `forestContains` over a list is an `any`. -/
theorem forestContains_eq_any (o : LangfuseObservation) (l : List TreeItem) :
    forestContains o l = l.any (itemContains o) := by
  induction l with
  | nil => rfl
  | cons t ts ih => rw [forestContains, ih, List.any_cons]

/-- Membership in the full-record projection. -/
theorem mem_fullObservations (observations : List ObsEntry) (o : LangfuseObservation) :
    o ∈ fullObservations observations ↔ ObsEntry.full o ∈ observations := by
  unfold fullObservations
  rw [List.mem_filterMap]
  constructor
  · rintro ⟨a, ha, hf⟩
    cases a with
    | ref i => simp at hf
    | full obs => simp at hf; rwa [← hf]
  · intro h
    exact ⟨.full o, h, rfl⟩

/-- Every observation emitted inside `addNode`'s output starting from a
record of the input is either that record or has a parent id that is some
input record's id. -/
theorem itemContains_addNode_sound (full : List LangfuseObservation)
    (o : LangfuseObservation) :
    ∀ (n : Nat) (o' : LangfuseObservation), o' ∈ full →
      itemContains o (addNode (childrenMap full) n o') = true →
      o = o' ∨ (o ∈ full ∧ ∃ x ∈ full, o.parent_observation_id = some x.id) := by
  intro n
  induction n with
  | zero =>
    intro o' _ h
    rw [addNode, itemContains] at h
    simp only [forestContains, Bool.or_false] at h
    left
    exact (beq_iff_eq.mp h).symm
  | succ n ih =>
    intro o' ho' h
    rw [addNode_succ, itemContains, forestContains_eq_any] at h
    rcases Bool.or_eq_true_iff.mp h with heq | hany
    · left
      exact (beq_iff_eq.mp heq).symm
    · rw [List.any_eq_true] at hany
      obtain ⟨t, ht, hcontain⟩ := hany
      obtain ⟨x, hx, rfl⟩ := List.mem_map.mp ht
      rw [childrenMap_get] at hx
      have hxfull : x ∈ full := (List.mem_filter.mp hx).1
      have hxparent : x.parent_observation_id = some o'.id :=
        beq_iff_eq.mp ((List.mem_filter.mp hx).2)
      rcases ih x hxfull hcontain with rfl | hrest
      · right
        exact ⟨hxfull, o', ho', hxparent⟩
      · right
        exact hrest

/-! ## C4: orphaned records (corrected: dropped, not emitted as roots) -/

/-- Fixture: a record whose parent id matches no record in the input. -/
def obsGhostChild : LangfuseObservation := mkObs "a" (some "ghost")

/-- C4 counterexample: a full record whose non-null parent id appears as no
record's id is NOT emitted: the rendered forest for the one-record input is
empty, so the record is dropped rather than treated as a root. -/
theorem c4_cex_orphan_dropped :
    _build_observation_tree [.full obsGhostChild] = []
    ∧ forestContains obsGhostChild (_build_observation_tree [.full obsGhostChild]) = false := by
  exact ⟨by decide, by decide⟩

/-- C4 amended: a full record whose `parent_observation_id` is non-null and
matches no input record's id is never emitted anywhere in the rendered
forest — it sits in a bucket that the recursion (which starts only from
parent-`None` records) never visits, and is silently dropped. -/
theorem c4_orphan_record_dropped :
    ∀ (observations : List ObsEntry) (o : LangfuseObservation) (p : String),
      ObsEntry.full o ∈ observations →
      o.parent_observation_id = some p →
      p ∉ (fullObservations observations).map (·.id) →
      forestContains o (_build_observation_tree observations) = false := by
  intro observations o p hmem hparent hnotid
  by_contra hcontra
  have hcontain : forestContains o (_build_observation_tree observations) = true := by
    cases hfc : forestContains o (_build_observation_tree observations)
    · exact absurd hfc hcontra
    · rfl
  have hofull : o ∈ fullObservations observations :=
    (mem_fullObservations observations o).mpr hmem
  have hne : (fullObservations observations).isEmpty = false := by
    cases hl : fullObservations observations
    · rw [hl] at hofull; simp at hofull
    · rfl
  rw [_build_observation_tree, _build_observation_tree_fuel] at hcontain
  simp only [hne, Bool.false_eq_true, if_false] at hcontain
  rw [forestContains_eq_any, List.any_eq_true] at hcontain
  obtain ⟨t, ht, hitem⟩ := hcontain
  obtain ⟨r, hr, rfl⟩ := List.mem_map.mp ht
  rw [childrenMap_get] at hr
  have hrfull : r ∈ fullObservations observations := (List.mem_filter.mp hr).1
  have hrparent : r.parent_observation_id = none :=
    beq_iff_eq.mp ((List.mem_filter.mp hr).2)
  rcases itemContains_addNode_sound (fullObservations observations) o
      (fullObservations observations).length r hrfull hitem with rfl | ⟨_, x, hxfull, hxp⟩
  · rw [hparent] at hrparent
    cases hrparent
  · rw [hparent] at hxp
    have hpx : p = x.id := by injection hxp
    exact hnotid (hpx ▸ List.mem_map_of_mem (·.id) hxfull)

/-- C4 witness: the amended drop statement applied at the one-orphan input. -/
theorem c4_orphan_record_dropped_witness :
    forestContains obsGhostChild (_build_observation_tree [.full obsGhostChild]) = false :=
  c4_orphan_record_dropped [.full obsGhostChild] obsGhostChild "ghost"
    (by decide) rfl (by decide)

/-! ## C6: chain reconstruction (corrected: requires pairwise-distinct ids) -/

/-- Adjacent pairs of a `Chain'` satisfy the chain relation. -/
theorem chain_rel_of_mem_zip {R : LangfuseObservation → LangfuseObservation → Prop}
    (l : List LangfuseObservation) (hchain : List.Chain' R l) :
    ∀ a b, (a, b) ∈ l.zip l.tail → R a b := by
  induction l with
  | nil => intro a b h; simp at h
  | cons x t ih =>
    cases t with
    | nil => intro a b h; simp at h
    | cons y t' =>
      intro a b h
      rw [List.chain'_cons] at hchain
      rcases List.mem_cons.mp h with heq | hmem
      · injection heq with h1 h2
        rw [h1, h2]
        exact hchain.1
      · exact ih hchain.2 a b hmem

/-- Every element of the tail has a predecessor in the adjacency zip. -/
theorem mem_tail_pred (l : List LangfuseObservation) (c : LangfuseObservation) :
    c ∈ l.tail → ∃ y, (y, c) ∈ l.zip l.tail := by
  induction l with
  | nil => intro h; simp at h
  | cons x t ih =>
    intro hc
    cases t with
    | nil => simp at hc
    | cons y t' =>
      rcases List.mem_cons.mp hc with heq | hmem
      · exact ⟨x, by rw [heq]; exact List.mem_cons_self _ _⟩
      · obtain ⟨z, hz⟩ := ih hmem
        exact ⟨z, List.mem_cons_of_mem _ hz⟩

/-- The first component of an adjacency-zip pair lies in `dropLast`. -/
theorem zip_fst_mem_dropLast (l : List LangfuseObservation)
    (a b : LangfuseObservation) :
    (a, b) ∈ l.zip l.tail → a ∈ l.dropLast := by
  induction l with
  | nil => intro h; simp at h
  | cons x t ih =>
    cases t with
    | nil => intro h; simp at h
    | cons y t' =>
      intro h
      rcases List.mem_cons.mp h with heq | hmem
      · injection heq with h1 _
        rw [h1]
        simp
      · have := ih hmem
        rw [List.dropLast_cons₂]
        exact List.mem_cons_of_mem _ this

/-- In a duplicate-free list, an element has at most one successor. -/
theorem succ_unique (l : List LangfuseObservation) (hnd : l.Nodup)
    (a b₁ b₂ : LangfuseObservation) :
    (a, b₁) ∈ l.zip l.tail → (a, b₂) ∈ l.zip l.tail → b₁ = b₂ := by
  induction l with
  | nil => intro h _; simp at h
  | cons x t ih =>
    cases t with
    | nil => intro h _; simp at h
    | cons y t' =>
      intro h1 h2
      have hx : x ∉ y :: t' := (List.nodup_cons.mp hnd).1
      rcases List.mem_cons.mp h1 with he1 | hm1 <;> rcases List.mem_cons.mp h2 with he2 | hm2
      · injection he1 with _ hb1
        injection he2 with _ hb2
        rw [hb1, hb2]
      · injection he1 with ha1 _
        rw [← ha1] at hx
        exact absurd (List.of_mem_zip hm2).1 hx
      · injection he2 with ha2 _
        rw [← ha2] at hx
        exact absurd (List.of_mem_zip hm1).1 hx
      · exact ih (List.nodup_cons.mp hnd).2 hm1 hm2

/-- A two-element window of a suffix is an adjacency-zip pair. -/
theorem adjacent_of_suffix (l rest : List LangfuseObservation)
    (o c : LangfuseObservation) :
    (o :: c :: rest) <:+ l → (o, c) ∈ l.zip l.tail := by
  rintro ⟨pre, hpre⟩
  induction pre generalizing l with
  | nil =>
    rw [List.nil_append] at hpre
    rw [← hpre]
    exact List.mem_cons_self _ _
  | cons p pre' ih =>
    rw [List.cons_append] at hpre
    cases l with
    | nil => simp at hpre
    | cons x l' =>
      injection hpre with hx hl'
      have hmem := ih l' hl'
      cases l' with
      | nil => simp at hl'
      | cons z t => exact List.mem_cons_of_mem _ hmem

/-- Filtering a duplicate-free list whose only matching element is `c`
yields `[c]`. -/
theorem filter_eq_singleton (p : LangfuseObservation → Bool)
    (l : List LangfuseObservation) (c : LangfuseObservation) (hnd : l.Nodup)
    (hc : c ∈ l) (hpc : p c = true) (huniq : ∀ x ∈ l, p x = true → x = c) :
    l.filter p = [c] := by
  induction l with
  | nil => simp at hc
  | cons x t ih =>
    have hx : x ∉ t := (List.nodup_cons.mp hnd).1
    have hndt : t.Nodup := (List.nodup_cons.mp hnd).2
    rcases List.mem_cons.mp hc with heq | hmem
    · subst heq
      rw [List.filter_cons_of_pos hpc]
      have ht : t.filter p = [] := by
        rw [List.filter_eq_nil_iff]
        intro y hy hpy
        have hyc := huniq y (List.mem_cons_of_mem _ hy) hpy
        rw [hyc] at hy
        exact hx hy
      rw [ht]
    · have hpx : p x = false := by
        cases hp : p x
        · rfl
        · have := huniq x (List.mem_cons_self _ _) hp
          rw [this] at hx
          exact absurd hmem hx
      rw [List.filter_cons_of_neg (by rw [hpx]; simp)]
      exact ih hndt hmem (fun y hy hpy => huniq y (List.mem_cons_of_mem _ hy) hpy)

/-- The full-record projection of an all-full list. -/
theorem fullObservations_map_full (l : List LangfuseObservation) :
    fullObservations (l.map .full) = l := by
  unfold fullObservations
  rw [List.filterMap_map]
  have hcomp : ((fun o => match o with
      | ObsEntry.full obs => some obs
      | ObsEntry.ref _ => none) ∘ ObsEntry.full) = some := rfl
  rw [hcomp, List.filterMap_some]

/-- In a head-rooted chain with distinct ids, a record whose parent id is a
chain member's id is that member's immediate successor. -/
theorem chain_succ (obs : List LangfuseObservation)
    (hchain : List.Chain' (fun a b => b.parent_observation_id = some a.id) obs)
    (hids : (obs.map (·.id)).Nodup)
    (hhead : ∀ z, obs.head? = some z → z.parent_observation_id = none)
    (a x : LangfuseObservation) (ha : a ∈ obs) (hx : x ∈ obs)
    (hpx : x.parent_observation_id = some a.id) :
    (a, x) ∈ obs.zip obs.tail := by
  cases obs with
  | nil => simp at hx
  | cons y t =>
    rcases List.mem_cons.mp hx with heq | hmem
    · have hnone := hhead y rfl
      rw [heq] at hpx
      rw [hnone] at hpx
      cases hpx
    · obtain ⟨z, hz⟩ := mem_tail_pred (y :: t) x hmem
      have hrel : x.parent_observation_id = some z.id :=
        chain_rel_of_mem_zip _ hchain z x hz
      have hzid : z.id = a.id := by
        rw [hrel] at hpx
        injection hpx
      have hzmem : z ∈ y :: t := (List.of_mem_zip hz).1
      have hza : z = a := List.inj_on_of_nodup_map hids hzmem ha hzid
      rw [← hza]
      exact hz

/-- Walking a suffix of a head-rooted duplicate-free chain with enough fuel
emits exactly the linear chain of that suffix. -/
theorem chain_emit (obs : List LangfuseObservation)
    (hchain : List.Chain' (fun a b => b.parent_observation_id = some a.id) obs)
    (hids : (obs.map (·.id)).Nodup)
    (hhead : ∀ z, obs.head? = some z → z.parent_observation_id = none) :
    ∀ (rest : List LangfuseObservation) (o : LangfuseObservation) (n : Nat),
      (o :: rest) <:+ obs → rest.length < n →
      addNode (childrenMap obs) n o = linearChain o rest := by
  have hnd : obs.Nodup := List.Nodup.of_map _ hids
  intro rest
  induction rest with
  | nil =>
    intro o n hsuf hlen
    cases n with
    | zero => omega
    | succ m =>
      rw [addNode_succ, childrenMap_get]
      have homem : o ∈ obs := hsuf.subset (List.mem_cons_self o [])
      have hempty : obs.filter (fun x => x.parent_observation_id == some o.id) = [] := by
        rw [List.filter_eq_nil_iff]
        intro x hxmem hpb
        have hp : x.parent_observation_id = some o.id := beq_iff_eq.mp hpb
        have hzip := chain_succ obs hchain hids hhead o x homem hxmem hp
        have hdl : o ∈ obs.dropLast := zip_fst_mem_dropLast obs o x hzip
        obtain ⟨pre, hpre⟩ := hsuf
        rw [← hpre, List.dropLast_concat] at hdl
        have hdisj := (List.nodup_append.mp (hpre ▸ hnd : (pre ++ [o]).Nodup)).2.2
        exact hdisj hdl (List.mem_cons_self o [])
      rw [hempty]
      rfl
  | cons c rest' ih =>
    intro o n hsuf hlen
    cases n with
    | zero => omega
    | succ m =>
      rw [addNode_succ, childrenMap_get]
      have hozip : (o, c) ∈ obs.zip obs.tail := adjacent_of_suffix obs rest' o c hsuf
      have homem : o ∈ obs := (List.of_mem_zip hozip).1
      have hcmem : c ∈ obs := hsuf.subset (List.mem_cons_of_mem _ (List.mem_cons_self c rest'))
      have hcp : c.parent_observation_id = some o.id :=
        chain_rel_of_mem_zip obs hchain o c hozip
      have hone : obs.filter (fun x => x.parent_observation_id == some o.id) = [c] := by
        refine filter_eq_singleton (fun x => x.parent_observation_id == some o.id)
          obs c hnd hcmem (beq_iff_eq.mpr hcp) ?_
        intro x hxmem hpb
        have hp := beq_iff_eq.mp hpb
        have hzip := chain_succ obs hchain hids hhead o x homem hxmem hp
        exact succ_unique obs hnd o x c hzip hozip
      rw [hone]
      have hsuf' : (c :: rest') <:+ obs := by
        obtain ⟨pre, hpre⟩ := hsuf
        refine ⟨pre ++ [o], ?_⟩
        rw [List.append_assoc]
        exact hpre
      have hlen' : rest'.length < m := by
        simp only [List.length_cons] at hlen
        omega
      rw [List.map_cons, List.map_nil, ih c m hsuf' hlen']
      rfl

/-! ## C6 claim theorems -/

/-- Fixture: the duplicate-id chain `a → b → a` on which the Python
recursion diverges. -/
def dupIdChain : List ObsEntry :=
  [.full (mkObs "a" none), .full (mkObs "b" (some "a")), .full (mkObs "a" (some "b"))]

/-- C6 counterexample: a three-record input satisfying the claim's chain
shape (first parent `None`, each subsequent parent = previous record's id)
but with a duplicated id; the rendered output is not one root with a linear
chain of two nested descendants (the Python recursion in fact re-enters the
duplicated bucket: under any fuel the forest is strictly deeper, and in
Python the recursion does not terminate). -/
theorem c6_cex_duplicate_id_chain :
    _build_observation_tree dupIdChain
      ≠ [linearChain (mkObs "a" none) [mkObs "b" (some "a"), mkObs "a" (some "b")]] := by
  decide

/-- C6 amended: for a chain of N full records with pairwise-distinct ids
(first parent `None`, each subsequent record's parent = previous record's
id), the rendered forest is exactly one root with a linear chain of N−1
nested descendants, in input order; and in general the children emitted
under any parent are the input-ordered records whose parent id matches
(never re-sorted). -/
theorem c6_chain_reconstruction :
    (∀ (o : LangfuseObservation) (rest : List LangfuseObservation),
      o.parent_observation_id = none →
      List.Chain' (fun a b => b.parent_observation_id = some a.id) (o :: rest) →
      ((o :: rest).map (·.id)).Nodup →
      _build_observation_tree ((o :: rest).map .full) = [linearChain o rest])
    ∧ (∀ (observations : List ObsEntry) (n : Nat) (o : LangfuseObservation),
        (addNode (childrenMap (fullObservations observations)) (n + 1) o).kids
          = ((fullObservations observations).filter
              (fun x => x.parent_observation_id == some o.id)).map
              (addNode (childrenMap (fullObservations observations)) n)) := by
  constructor
  · intro o rest hnone hchain hids
    have hhead : ∀ z, (o :: rest).head? = some z → z.parent_observation_id = none := by
      intro z hz
      injection hz with hz
      rw [← hz]
      exact hnone
    have hnd : (o :: rest).Nodup := List.Nodup.of_map _ hids
    simp only [_build_observation_tree, _build_observation_tree_fuel,
      fullObservations_map_full, List.isEmpty_cons, Bool.false_eq_true, if_false]
    have hroots : (o :: rest).filter (fun x => x.parent_observation_id == none) = [o] := by
      refine filter_eq_singleton (fun x => x.parent_observation_id == none)
        (o :: rest) o hnd (List.mem_cons_self o rest) (beq_iff_eq.mpr hnone) ?_
      intro x hxmem hpb
      have hp : x.parent_observation_id = none := beq_iff_eq.mp hpb
      rcases List.mem_cons.mp hxmem with heq | hmem
      · exact heq
      · obtain ⟨z, hz⟩ := mem_tail_pred (o :: rest) x hmem
        have hrel : x.parent_observation_id = some z.id :=
          chain_rel_of_mem_zip _ hchain z x hz
        rw [hp] at hrel
        cases hrel
    rw [childrenMap_get, hroots, List.map_cons, List.map_nil]
    rw [chain_emit (o :: rest) hchain hids hhead rest o (o :: rest).length
      (List.suffix_refl _) (by simp)]
  · intro observations n o
    rw [addNode_succ, childrenMap_get]
    rfl

/-- C6 witness: the amended chain statement applied at the concrete
three-record chain `a → b → c`. -/
theorem c6_chain_reconstruction_witness :
    _build_observation_tree
        ([mkObs "a" none, mkObs "b" (some "a"), mkObs "c" (some "b")].map .full)
      = [linearChain (mkObs "a" none) [mkObs "b" (some "a"), mkObs "c" (some "b")]] :=
  c6_chain_reconstruction.1 (mkObs "a" none) [mkObs "b" (some "a"), mkObs "c" (some "b")]
    rfl (by simp [mkObs]) (by decide)

/-! ## C10: termination of the tree recursion (corrected: needs distinct
record ids; with a duplicated id the Python recursion diverges) -/

/-- Fixture: record with id `x` and no parent. -/
def obsB : LangfuseObservation := mkObs "x" none

/-- Fixture: self-parent record that DUPLICATES the id `x`. -/
def obsASelf : LangfuseObservation := mkObs "x" (some "x")

/-- Fixture: input on which the Python recursion diverges (duplicate id,
self-parent). -/
def dupSelf : List ObsEntry := [.full obsB, .full obsASelf]

/-- The children map of the divergence fixture. -/
def dupCmap : List (Option String × List LangfuseObservation) :=
  childrenMap (fullObservations dupSelf)

/-- In the divergence fixture, the self-parent record's subtree grows with
the fuel: descending `n` steps succeeds and `n + 1` steps falls off. -/
theorem dup_depthA : ∀ n : Nat,
    descendFirst n (addNode dupCmap n obsASelf) = some (.obsItem obsASelf [])
    ∧ descendFirst (n + 1) (addNode dupCmap n obsASelf) = none := by
  intro n
  induction n with
  | zero => exact ⟨rfl, rfl⟩
  | succ n ih =>
    have hk : addNode dupCmap (n + 1) obsASelf
        = TreeItem.obsItem obsASelf [addNode dupCmap n obsASelf] := by
      rw [addNode_succ, show mapGetD dupCmap (some obsASelf.id) = [obsASelf] from by decide]
      rfl
    constructor
    · rw [hk]
      show descendFirst n (addNode dupCmap n obsASelf) = some (.obsItem obsASelf [])
      exact ih.1
    · rw [hk]
      show descendFirst (n + 1) (addNode dupCmap n obsASelf) = none
      exact ih.2

/-- The forest of the divergence fixture at positive fuel. -/
theorem dup_head : ∀ n : Nat,
    _build_observation_tree_fuel (n + 1) dupSelf
      = [TreeItem.obsItem obsB [addNode dupCmap n obsASelf]] := by
  intro n
  have h1 : _build_observation_tree_fuel (n + 1) dupSelf
      = [addNode dupCmap (n + 1) obsB] := rfl
  rw [h1, addNode_succ, show mapGetD dupCmap (some obsB.id) = [obsASelf] from by decide]
  rfl

/-- C10 counterexample: on the duplicate-id self-parent input the emitted
forest never stops changing as the recursion is allowed to go deeper — the
record is re-visited at every level, i.e. the Python recursion does not
terminate on this finite input. -/
theorem c10_cex_duplicate_id_divergence : ¬ treeBuildStabilizes dupSelf := by
  rintro ⟨k, hk⟩
  have h1 := hk (k + 1) (Nat.le_succ k)
  cases k with
  | zero =>
    rw [dup_head 0] at h1
    exact absurd h1 (by decide)
  | succ m =>
    rw [dup_head (m + 1), dup_head m] at h1
    have h2 : addNode dupCmap (m + 1) obsASelf = addNode dupCmap m obsASelf := by
      have := congrArg (fun l => ((l.headD (.refItem "")).kids.headD (.refItem ""))) h1
      simpa [TreeItem.kids] using this
    have ha := (dup_depthA (m + 1)).1
    have hb := (dup_depthA m).2
    rw [h2] at ha
    exact Option.noConfusion (ha.symm.trans hb)

/-- A root-anchored parent path through the records of `full`, deepest
record first: each element's parent id is the next element's id, the last
element has no parent, and no element repeats. -/
inductive ValidPath (full : List LangfuseObservation) : List LangfuseObservation → Prop where
  | root (o : LangfuseObservation) (ho : o ∈ full)
      (hp : o.parent_observation_id = none) : ValidPath full [o]
  | step (c o : LangfuseObservation) (rest : List LangfuseObservation)
      (hv : ValidPath full (o :: rest)) (hc : c ∈ full)
      (hp : c.parent_observation_id = some o.id)
      (hnot : c ∉ o :: rest) : ValidPath full (c :: o :: rest)

/-- Path members are records of the input. -/
theorem vp_subset {full : List LangfuseObservation} {P : List LangfuseObservation}
    (h : ValidPath full P) : ∀ x ∈ P, x ∈ full := by
  induction h with
  | root o ho hp =>
    intro x hx
    rcases List.mem_singleton.mp hx with rfl
    exact ho
  | step c o rest hv hc hp hnot ih =>
    intro x hx
    rcases List.mem_cons.mp hx with rfl | hx'
    · exact hc
    · exact ih x hx'

/-- Paths never repeat a record. -/
theorem vp_nodup {full : List LangfuseObservation} {P : List LangfuseObservation}
    (h : ValidPath full P) : P.Nodup := by
  induction h with
  | root o ho hp => exact List.nodup_singleton o
  | step c o rest hv hc hp hnot ih => exact List.nodup_cons.mpr ⟨hnot, ih⟩

/-- Every path element either has no parent or its parent is on the path. -/
theorem vp_parent_closed {full : List LangfuseObservation} {P : List LangfuseObservation}
    (h : ValidPath full P) : ∀ x ∈ P,
      x.parent_observation_id = none
      ∨ ∃ y ∈ P, x.parent_observation_id = some y.id := by
  induction h with
  | root o ho hp =>
    intro x hx
    rcases List.mem_singleton.mp hx with rfl
    exact Or.inl hp
  | step c o rest hv hc hp hnot ih =>
    intro x hx
    rcases List.mem_cons.mp hx with rfl | hx'
    · exact Or.inr ⟨o, List.mem_cons_of_mem _ (List.mem_cons_self o rest), hp⟩
    · rcases ih x hx' with hnone | ⟨y, hy, hpy⟩
      · exact Or.inl hnone
      · exact Or.inr ⟨y, List.mem_cons_of_mem _ hy, hpy⟩

/-- With distinct ids, a child of the path's head is not already on the
path. -/
theorem vp_extend_not_mem {full : List LangfuseObservation}
    (hids : (full.map (·.id)).Nodup) {o : LangfuseObservation}
    {rest : List LangfuseObservation} (hvp : ValidPath full (o :: rest))
    {c : LangfuseObservation} (hc : c ∈ full)
    (hp : c.parent_observation_id = some o.id) : c ∉ o :: rest := by
  intro hmem
  rcases List.mem_cons.mp hmem with rfl | hmemr
  · cases hvp with
    | root _ _ hpo =>
      rw [hpo] at hp
      cases hp
    | step c' o' rest' hv' hc' hp' hnot' =>
      rw [hp'] at hp
      have hid : o'.id = c.id := by injection hp
      have ho'full : o' ∈ full := vp_subset hv' o' (List.mem_cons_self o' rest')
      have ho'c : o' = c := List.inj_on_of_nodup_map hids ho'full hc hid
      exact hnot' (ho'c ▸ List.mem_cons_self o' rest')
  · cases hvp with
    | root _ _ hpo => simp at hmemr
    | step _ o' rest' hv' hc' hp' hnot' =>
      rcases vp_parent_closed hv' c hmemr with hnone | ⟨y, hy, hpy⟩
      · rw [hnone] at hp
        cases hp
      · rw [hpy] at hp
        have hid : y.id = o.id := by injection hp
        have hyfull : y ∈ full := vp_subset hv' y hy
        have hyo : y = o := List.inj_on_of_nodup_map hids hyfull hc' hid
        exact hnot' (hyo ▸ hy)

/-- A path as long as the whole input covers every record. -/
theorem vp_pigeonhole {full : List LangfuseObservation}
    {P : List LangfuseObservation}
    (hvp : ValidPath full P) (hlen : full.length ≤ P.length) :
    ∀ x ∈ full, x ∈ P := by
  have hnd : P.Nodup := vp_nodup hvp
  have hsub : P ⊆ full := fun x hx => vp_subset hvp x hx
  have hsp : List.Subperm P full := hnd.subperm hsub
  have hperm : List.Perm P full := hsp.perm_of_length_le hlen
  intro x hx
  exact hperm.mem_iff.mpr hx

/-- One fuel step does not change the emitted subtree of a path head, once
the fuel plus the path length covers the whole input. -/
theorem addNode_fuel_step (full : List LangfuseObservation)
    (hids : (full.map (·.id)).Nodup) :
    ∀ (n : Nat) (o : LangfuseObservation) (rest : List LangfuseObservation),
      ValidPath full (o :: rest) → full.length ≤ n + (o :: rest).length →
      addNode (childrenMap full) n o = addNode (childrenMap full) (n + 1) o := by
  intro n
  induction n with
  | zero =>
    intro o rest hvp hlen
    rw [addNode_succ, childrenMap_get]
    have hempty : full.filter (fun x => x.parent_observation_id == some o.id) = [] := by
      rw [List.filter_eq_nil_iff]
      intro x hx hpb
      have hp := beq_iff_eq.mp hpb
      have hnot := vp_extend_not_mem hids hvp hx hp
      have hin := vp_pigeonhole hvp (by simpa using hlen) x hx
      exact hnot hin
    rw [hempty]
    rfl
  | succ n ih =>
    intro o rest hvp hlen
    rw [addNode_succ, addNode_succ, childrenMap_get]
    congr 1
    apply List.map_congr_left
    intro c hc
    have hcfull : c ∈ full := (List.mem_filter.mp hc).1
    have hcp : c.parent_observation_id = some o.id :=
      beq_iff_eq.mp (List.mem_filter.mp hc).2
    have hnot := vp_extend_not_mem hids hvp hcfull hcp
    have hvp' : ValidPath full (c :: o :: rest) :=
      ValidPath.step c o rest hvp hcfull hcp hnot
    apply ih c (o :: rest) hvp'
    simp only [List.length_cons] at hlen ⊢
    omega

/-- C10 amended: provided the full records have pairwise-distinct ids,
`_build_observation_tree` terminates on every finite input — including
self-parent records and parent cycles, which are simply never visited: each
record sits in exactly one bucket, the recursion starts only from
parent-`None` records, and from fuel = number of records on, the emitted
forest no longer changes. -/
theorem c10_tree_build_terminates :
    ∀ (observations : List ObsEntry),
      ((fullObservations observations).map (·.id)).Nodup →
      treeBuildStabilizes observations := by
  intro observations hids
  refine ⟨(fullObservations observations).length, ?_⟩
  intro n hn
  induction n, hn using Nat.le_induction with
  | base => rfl
  | succ n hn ih =>
    rw [← ih]
    show _build_observation_tree_fuel (n + 1) observations
      = _build_observation_tree_fuel n observations
    unfold _build_observation_tree_fuel
    cases hfe : (fullObservations observations).isEmpty
    · simp only [hfe, Bool.false_eq_true, if_false]
      apply List.map_congr_left
      intro r hr
      rw [childrenMap_get] at hr
      have hrfull : r ∈ fullObservations observations := (List.mem_filter.mp hr).1
      have hrnone : r.parent_observation_id = none :=
        beq_iff_eq.mp (List.mem_filter.mp hr).2
      exact (addNode_fuel_step (fullObservations observations) hids n r []
        (ValidPath.root r hrfull hrnone) (by simpa using Nat.le_succ_of_le hn)).symm
    · simp only [hfe, if_true]

/-- C10 witness: the termination statement applied at a concrete
distinct-id two-record chain. -/
theorem c10_tree_build_terminates_witness :
    treeBuildStabilizes [.full (mkObs "r" none), .full (mkObs "s" (some "r"))] :=
  c10_tree_build_terminates [.full (mkObs "r" none), .full (mkObs "s" (some "r"))]
    (by decide)

/-! ## C8: `_parse_date` / `_parse_label` and the pre-fetch usage-error stage

`datetime.strptime` against the four literal formats is modelled at the
character level (each `%`-field of the formats is a digit run delimited by
the literal separators, validated exactly as the `_strptime` regexes and the
`datetime` constructor do). `str.strip` is modelled over ASCII whitespace;
strptime's collapsing of consecutive whitespace and non-ASCII digits are not
modelled — no claim exercises them. Local-timezone epoch conversion is
modelled with a zero UTC offset: the offset is an additive constant that no
claim inspects. -/

/-- The components of a parsed `datetime`. -/
structure DateTime where
  year : Nat
  month : Nat
  day : Nat
  hour : Nat
  minute : Nat
  second : Nat
deriving DecidableEq

/-- ASCII digit test. -/
def digitChar (c : Char) : Bool := 48 ≤ c.toNat && c.toNat ≤ 57

/-- Decimal value of a digit run. -/
def digitsVal (l : List Char) : Nat :=
  l.foldl (fun n c => n * 10 + (c.toNat - 48)) 0

/-- Split a character list at every occurrence of `sep`
(`str.split(sep)` keeping empty parts). -/
def splitOnChar (sep : Char) : List Char → List (List Char)
  | [] => [[]]
  | c :: t =>
    let r := splitOnChar sep t
    if c == sep then [] :: r
    else
      match r with
      | [] => [[c]]
      | h :: t' => (c :: h) :: t'

/-- `%Y`: exactly four digits; the `datetime` constructor additionally
rejects year 0. -/
def yearTok (l : List Char) : Option Nat :=
  if l.length == 4 && l.all digitChar && digitsVal l != 0 then some (digitsVal l)
  else none

/-- `%m`: one or two digits, value 1–12. -/
def monthTok (l : List Char) : Option Nat :=
  if (l.length == 1 || l.length == 2) && l.all digitChar
      && 1 ≤ digitsVal l && digitsVal l ≤ 12 then some (digitsVal l)
  else none

/-- `%d` (regex part): one or two digits, value 1–31; the calendar check
against the month happens in `parseYMD`. -/
def dayTok (l : List Char) : Option Nat :=
  if (l.length == 1 || l.length == 2) && l.all digitChar
      && 1 ≤ digitsVal l && digitsVal l ≤ 31 then some (digitsVal l)
  else none

/-- `%H`: one or two digits, value 0–23. -/
def hourTok (l : List Char) : Option Nat :=
  if (l.length == 1 || l.length == 2) && l.all digitChar
      && digitsVal l ≤ 23 then some (digitsVal l)
  else none

/-- `%M`/`%S`: one or two digits, value 0–59. -/
def minSecTok (l : List Char) : Option Nat :=
  if (l.length == 1 || l.length == 2) && l.all digitChar
      && digitsVal l ≤ 59 then some (digitsVal l)
  else none

/-- Gregorian leap year. -/
def isLeap (y : Nat) : Bool := y % 4 == 0 && (y % 100 != 0 || y % 400 == 0)

/-- Days in a month (the `datetime` constructor's calendar). -/
def daysInMonth (y m : Nat) : Nat :=
  if m == 2 then (if isLeap y then 29 else 28)
  else if m == 4 || m == 6 || m == 9 || m == 11 then 30
  else 31

/-- Parse and validate a `%Y-%m-%d` character list. -/
def parseYMD (l : List Char) : Option (Nat × Nat × Nat) :=
  match splitOnChar '-' l with
  | [ys, ms, ds] =>
    match yearTok ys, monthTok ms, dayTok ds with
    | some y, some m, some d => if d ≤ daysInMonth y m then some (y, m, d) else none
    | _, _, _ => none
  | _ => none

/-- Parse a `%H:%M:%S` character list. -/
def parseHMS (l : List Char) : Option (Nat × Nat × Nat) :=
  match splitOnChar ':' l with
  | [hs, ms, ss] =>
    match hourTok hs, minSecTok ms, minSecTok ss with
    | some h, some m, some s => some (h, m, s)
    | _, _, _ => none
  | _ => none

/-- Parse a `%H:%M` character list. -/
def parseHM (l : List Char) : Option (Nat × Nat) :=
  match splitOnChar ':' l with
  | [hs, ms] =>
    match hourTok hs, minSecTok ms with
    | some h, some m => some (h, m)
    | _, _ => none
  | _ => none

/-- Format `"%Y-%m-%d"` (parses to midnight). -/
def parseFmt1 (s : String) : Option DateTime :=
  (parseYMD s.data).map fun ymd => ⟨ymd.1, ymd.2.1, ymd.2.2, 0, 0, 0⟩

/-- Format `"%Y-%m-%d %H:%M:%S"`. -/
def parseFmt2 (s : String) : Option DateTime :=
  match splitOnChar ' ' s.data with
  | [dpart, tpart] =>
    match parseYMD dpart, parseHMS tpart with
    | some ymd, some hms => some ⟨ymd.1, ymd.2.1, ymd.2.2, hms.1, hms.2.1, hms.2.2⟩
    | _, _ => none
  | _ => none

/-- Format `"%Y-%m-%dT%H:%M:%S"`. -/
def parseFmt3 (s : String) : Option DateTime :=
  match splitOnChar 'T' s.data with
  | [dpart, tpart] =>
    match parseYMD dpart, parseHMS tpart with
    | some ymd, some hms => some ⟨ymd.1, ymd.2.1, ymd.2.2, hms.1, hms.2.1, hms.2.2⟩
    | _, _ => none
  | _ => none

/-- Format `"%Y-%m-%d %H:%M"`. -/
def parseFmt4 (s : String) : Option DateTime :=
  match splitOnChar ' ' s.data with
  | [dpart, tpart] =>
    match parseYMD dpart, parseHM tpart with
    | some ymd, some hm => some ⟨ymd.1, ymd.2.1, ymd.2.2, hm.1, hm.2, 0⟩
    | _, _ => none
  | _ => none

/-- The `for fmt in formats: try ...` loop of `_parse_date`: first format
that accepts wins; `None` means every format was rejected (the
`typer.BadParameter` path). -/
def parseDateTime (s : String) : Option DateTime :=
  match parseFmt1 s with
  | some dt => some dt
  | none =>
    match parseFmt2 s with
    | some dt => some dt
    | none =>
      match parseFmt3 s with
      | some dt => some dt
      | none => parseFmt4 s

/-- Days in the years `[1, y)`. -/
def daysBeforeYear (y : Nat) : Nat :=
  let n := y - 1
  n * 365 + n / 4 + n / 400 - n / 100

/-- Days in the months `[1, m)` of year `y`. -/
def daysBeforeMonth (y m : Nat) : Nat :=
  (List.range (m - 1)).foldl (fun acc i => acc + daysInMonth y (i + 1)) 0

/-- Proleptic-Gregorian day ordinal (0 = 0001-01-01). -/
def toOrdinal (y m d : Nat) : Nat :=
  daysBeforeYear y + daysBeforeMonth y m + (d - 1)

/-- `datetime.timestamp()` of the parsed components (UTC-offset-zero
model). -/
def epochOfDateTime (dt : DateTime) : Int :=
  ((toOrdinal dt.year dt.month dt.day : Int) - (toOrdinal 1970 1 1 : Int)) * 86400
    + dt.hour * 3600 + dt.minute * 60 + dt.second

/-- `_parse_date`: the timestamp of the first accepted format, `None` for
the usage-error path. -/
def _parse_date (s : String) : Option Int :=
  (parseDateTime s).map epochOfDateTime

/-- ASCII whitespace (`str.strip`'s set, restricted to ASCII). -/
def isSpaceChar (c : Char) : Bool :=
  c == ' ' || c == '\t' || c == '\n' || c == '\r' || c.toNat == 11 || c.toNat == 12

/-- `str.strip()`. -/
def trimChars (l : List Char) : List Char :=
  ((l.dropWhile isSpaceChar).reverse.dropWhile isSpaceChar).reverse

/-- `_parse_label`: `None` iff the string has no `'='` (the usage-error
path); otherwise split at the FIRST `'='` and strip both parts. -/
def _parse_label (label_str : String) : Option (String × String) :=
  if label_str.data.contains '=' then
    match splitOnChar '=' label_str.data with
    | [] => none
    | k :: rest =>
      some (⟨trimChars k⟩, ⟨trimChars (List.intercalate ['='] rest)⟩)
  else none

/-- The label-parsing loop of `search_sessions`: the first invalid label
raises. -/
def parseLabels : List String → Except String (List (String × String))
  | [] => .ok []
  | l :: ls =>
    match _parse_label l with
    | none => .error ("Invalid label format: " ++ l)
    | some kv =>
      match parseLabels ls with
      | .error e => .error e
      | .ok rest => .ok (kv :: rest)

/-- `after_ts = _parse_date(after) if after else None` (and likewise for
`before`): an absent or empty argument is no bound; a present one must
parse or raises. -/
def parseDateArg : Option String → Except String (Option Int)
  | none => .ok none
  | some s =>
    if s.isEmpty then .ok none
    else
      match _parse_date s with
      | none => .error ("Invalid date format: " ++ s)
      | some t => .ok (some t)

/-- The caller-supplied arguments of `search_sessions`. -/
structure SearchArgs where
  query : Option String
  label : List String
  provider : Option String
  model : Option String
  function : Option String
  after : Option String
  before : Option String
  has_errors : Bool
  evals_failed : Bool
  limit : Option Int

/-- `search_sessions` with the fetch made explicit: labels and dates are
parsed BEFORE the fetched response is consumed, so a usage error is
produced without touching it. -/
def searchRun (args : SearchArgs) (fetched : SessionsResponse) :
    Except String SessionsResponse :=
  match parseLabels args.label with
  | .error e => .error e
  | .ok parsed_labels =>
    match parseDateArg args.after with
    | .error e => .error e
    | .ok after_ts =>
      match parseDateArg args.before with
      | .error e => .error e
      | .ok before_ts =>
        let filtered := _filter_sessions fetched args.query
          (if parsed_labels.isEmpty then none else some parsed_labels)
          args.provider args.model args.function after_ts before_ts
          args.has_errors args.evals_failed
        .ok { filtered with sessions := applyLimit args.limit filtered.sessions }

/-- `splitOnChar` never returns the empty list. -/
theorem splitOnChar_ne_nil (sep : Char) (l : List Char) : splitOnChar sep l ≠ [] := by
  induction l with
  | nil => simp [splitOnChar]
  | cons c t ih =>
    rw [splitOnChar]
    by_cases h : (c == sep) = true
    · simp [h]
    · simp only [h, Bool.false_eq_true, if_false]
      cases hr : splitOnChar sep t with
      | nil => simp
      | cons x xs => simp

/-- A bad label anywhere in the list makes the label-parsing loop raise. -/
theorem parseLabels_error_of_mem (ls : List String) (s : String) (hmem : s ∈ ls)
    (hnone : _parse_label s = none) : ∃ e, parseLabels ls = .error e := by
  induction ls with
  | nil => simp at hmem
  | cons l t ih =>
    rcases List.mem_cons.mp hmem with rfl | hm
    · exact ⟨"Invalid label format: " ++ s, by simp only [parseLabels, hnone]⟩
    · cases hl : _parse_label l with
      | none => exact ⟨"Invalid label format: " ++ l, by simp only [parseLabels, hl]⟩
      | some kv =>
        obtain ⟨e, he⟩ := ih hm
        exact ⟨e, by simp only [parseLabels, hl, he]⟩

/-- C8: `_parse_date` accepts exactly the four literal formats (the bare
date parsing to midnight, the three time-carrying forms to the given time),
returning the timestamp of the parsed components, and rejects everything
else (e.g. an invalid month); `_parse_label` splits at the first `'='`
(values may contain `'='`) and fails exactly when the string has no `'='`;
and either failure makes `search_sessions` produce a usage error whose value
is independent of the fetched data — the error is raised before any fetched
response is consumed. -/
theorem c8_parse_date_label_usage_errors :
    parseDateTime "2025-01-15" = some ⟨2025, 1, 15, 0, 0, 0⟩
    ∧ parseDateTime "2025-01-15 10:30:00" = some ⟨2025, 1, 15, 10, 30, 0⟩
    ∧ parseDateTime "2025-01-15T10:30:00" = some ⟨2025, 1, 15, 10, 30, 0⟩
    ∧ parseDateTime "2025-01-15 10:30" = some ⟨2025, 1, 15, 10, 30, 0⟩
    ∧ parseDateTime "2025-13-01" = none
    ∧ (∀ s dt, parseDateTime s = some dt → _parse_date s = some (epochOfDateTime dt))
    ∧ (∀ s, (_parse_label s).isSome = s.data.contains '=')
    ∧ _parse_label "k=v=w" = some ("k", "v=w")
    ∧ (∀ (args : SearchArgs) (s : String) (r₁ r₂ : SessionsResponse),
        args.after = some s → s ≠ "" → parseDateTime s = none →
        (∃ e, searchRun args r₁ = .error e) ∧ searchRun args r₁ = searchRun args r₂)
    ∧ (∀ (args : SearchArgs) (s : String) (r₁ r₂ : SessionsResponse),
        s ∈ args.label → _parse_label s = none →
        (∃ e, searchRun args r₁ = .error e) ∧ searchRun args r₁ = searchRun args r₂) := by
  refine ⟨by decide, by decide, by decide, by decide, by decide, ?_, ?_, by decide, ?_, ?_⟩
  · intro s dt h
    rw [_parse_date, h]
    rfl
  · intro s
    rw [_parse_label]
    cases hc : s.data.contains '=' with
    | false => simp [hc]
    | true =>
      simp only [hc, if_true]
      cases hsp : splitOnChar '=' s.data with
      | nil => exact absurd hsp (splitOnChar_ne_nil '=' s.data)
      | cons k rest => simp
  · intro args s r₁ r₂ hafter hne hnone
    have hie : s.isEmpty = false := by
      cases hi : s.isEmpty
      · rfl
      · exact absurd ((String.isEmpty_iff s).mp hi) hne
    have hdate : parseDateArg args.after = .error ("Invalid date format: " ++ s) := by
      rw [hafter]
      simp only [parseDateArg, hie, Bool.false_eq_true, if_false, _parse_date, hnone,
        Option.map_none']
    cases hl : parseLabels args.label with
    | error e =>
      exact ⟨⟨e, by simp only [searchRun, hl]⟩, by simp only [searchRun, hl]⟩
    | ok pl =>
      exact ⟨⟨"Invalid date format: " ++ s, by simp only [searchRun, hl, hdate]⟩,
        by simp only [searchRun, hl, hdate]⟩
  · intro args s r₁ r₂ hmem hnone
    obtain ⟨e, he⟩ := parseLabels_error_of_mem args.label s hmem hnone
    exact ⟨⟨e, by simp only [searchRun, he]⟩, by simp only [searchRun, he]⟩

/-- C8 witness: a malformed month in `--after` yields a usage error that
does not depend on what the fetch would have returned. -/
theorem c8_parse_date_label_usage_errors_witness :
    (∃ e, searchRun ⟨none, [], none, none, none, some "2025-13-01", none, false, false, none⟩
        respAB = .error e)
    ∧ searchRun ⟨none, [], none, none, none, some "2025-13-01", none, false, false, none⟩
        respAB
      = searchRun ⟨none, [], none, none, none, some "2025-13-01", none, false, false, none⟩
        respNeg :=
  c8_parse_date_label_usage_errors.2.2.2.2.2.2.2.2.1
    ⟨none, [], none, none, none, some "2025-13-01", none, false, false, none⟩
    "2025-13-01" respAB respNeg rfl (by decide) (by decide)
